import Mathlib

/-
  Verification development for the morkdump repository (Go sources
  src/lex.go and src/parse.go): a lexer and recursive-descent parser for
  the Mork flat-file database format.

  The Go code is shallowly embedded as executable Lean functions:
  - the coroutine-style lexer (lex.go) becomes a fueled function from the
    input byte/char list to the emitted token list;
  - the parser (parse.go) becomes explicit state passing over `PState`
    (remaining tokens, the sticky error field `err`, and the
    namespace-keyed dictionaries), with loops driven by an explicit fuel
    argument.  Go maps are modelled as association lists (`alookup`,
    `aset`): lookup finds the first binding, `aset` overwrites in place.
  - `panic("poop")` in parse.go's expect() aborts the Go program with no
    recover anywhere, so it is modelled as the distinguished outcome
    `Step.halted`.
  - `Step.fuel` is the out-of-fuel marker of the model; a run of the Go
    code that loops forever corresponds to the model returning
    `Step.fuel` for every fuel value.
  Token positions (line/column/offset) are carried by the Go lexer for
  diagnostics only; no branch in the code depends on them and they are
  omitted from the embedding.  Side effects on stdout
  (`fmt.Printf("IGNORING row id\n")`) are likewise ignored.
-/

namespace Mork

/-- Token kinds, mirroring the itemType constants of lex.go (tEOF is the
zero value). -/
inductive ItemType where
  | tEOF
  | tERROR
  | tLITERAL
  | tNAME
  | tCARET
  | tPLUS
  | tCOLON
  | tEQUAL
  | tLANGLE
  | tRANGLE
  | tLPAREN
  | tRPAREN
  | tLSQUARE
  | tRSQUARE
  | tLBRACE
  | tRBRACE
  | tGROUPSTART
  | tGROUPCOMMIT
  | tGROUPABORT
deriving DecidableEq, Repr

/-- A lexer item: token kind and the exact source slice (positions are
diagnostic-only in the source and omitted). -/
structure Item where
  typ : ItemType
  val : String
deriving DecidableEq, Repr

/-- The zero value `item{}` of Go (typ = tEOF = 0, val = ""). -/
def emptyItem : Item := ⟨.tEOF, ""⟩

/-- The end-of-input item emitted by the lexer. -/
def eofItem : Item := ⟨.tEOF, ""⟩

/-- isSpace from lex.go. -/
def isSpace (r : Char) : Bool :=
  r = ' ' || r = '\n' || r = '\r' || r = '\t'

/-- isDigit from lex.go. -/
def isDigit (r : Char) : Bool :=
  '0' ≤ r && r ≤ '9'

/-- isAlpha from lex.go. -/
def isAlpha (r : Char) : Bool :=
  ('a' ≤ r && r ≤ 'z') || ('A' ≤ r && r ≤ 'Z')

/-- isHex from lex.go (same grouping of the disjuncts as the source). -/
def isHex (r : Char) : Bool :=
  ('a' ≤ r && r ≤ 'f') || (('A' ≤ r && r ≤ 'F') || ('0' ≤ r && r ≤ '9'))

/-- The `singles` map of lex.go: single-rune tokens. -/
def single (r : Char) : Option ItemType :=
  if r = '(' then some .tLPAREN
  else if r = ')' then some .tRPAREN
  else if r = '[' then some .tLSQUARE
  else if r = ']' then some .tRSQUARE
  else if r = '{' then some .tLBRACE
  else if r = '}' then some .tRBRACE
  else if r = '<' then some .tLANGLE
  else if r = '>' then some .tRANGLE
  else if r = ':' then some .tCOLON
  else if r = '+' then some .tPLUS
  else none

/-- gatherID from lex.go: greedily consume the leading hexadecimal run,
returning it together with the rest of the input. -/
def gatherID : List Char → String × List Char
  | [] => ("", [])
  | c :: cs =>
    if isHex c then
      let p := gatherID cs
      (String.mk (c :: p.1.data), p.2)
    else ("", c :: cs)

/-- The scanning loop of lexName from lex.go: alphanumerics and
underscore, plus the non-leading extras `- ! ? +`.  The Bool argument is
the `first` flag of the source. -/
def nameSpan : Bool → List Char → List Char × List Char
  | _, [] => ([], [])
  | first, c :: cs =>
    if isAlpha c || isDigit c || c = '_' ||
        (!first && (c = '-' || c = '!' || c = '?' || c = '+')) then
      let p := nameSpan false cs
      (c :: p.1, p.2)
    else ([], c :: cs)

/-- The scanning loop of lexLiteral from lex.go: consume raw bytes until
an unescaped `)` or end of input, a backslash escaping exactly the next
byte (consumed, not decoded).  The Bool argument is the `esc` flag. -/
def litSpan : Bool → List Char → List Char × List Char
  | _, [] => ([], [])
  | esc, c :: cs =>
    if !esc && c = ')' then ([], c :: cs)
    else if !esc && c = '\\' then
      let p := litSpan true cs
      (c :: p.1, p.2)
    else
      let p := litSpan false cs
      (c :: p.1, p.2)

/-- lexGroup from lex.go: the `@$$` group markers.  Returns the emitted
item and (on success) the remaining input; `none` as remainder means the
lexer stopped (fatal lexical error). -/
def lexGroup (cs : List Char) : Item × Option (List Char) :=
  match cs with
  | '@' :: '$' :: '$' :: rest =>
    match rest with
    | '{' :: r2 =>
      let p := gatherID r2
      if p.1.data.isEmpty then (⟨.tERROR, "Bad ID"⟩, none)
      else
        match p.2 with
        | '{' :: '@' :: r4 =>
          (⟨.tGROUPSTART, String.mk ('@' :: '$' :: '$' :: '{' :: p.1.data ++ ['{', '@'])⟩, some r4)
        | _ => (⟨.tERROR, "Expected"⟩, none)
    | '}' :: '~' :: r2 =>
      match r2 with
      | '~' :: '}' :: '@' :: r5 =>
        (⟨.tGROUPABORT, String.mk ['@', '$', '$', '}', '~', '~', '}', '@']⟩, some r5)
      | _ => (⟨.tERROR, "Expected"⟩, none)
    | '}' :: r2 =>
      let p := gatherID r2
      if p.1.data.isEmpty then (⟨.tERROR, "Bad ID"⟩, none)
      else
        match p.2 with
        | '}' :: '@' :: r4 =>
          (⟨.tGROUPCOMMIT, String.mk ('@' :: '$' :: '$' :: '}' :: p.1.data ++ ['}', '@'])⟩, some r4)
        | _ => (⟨.tERROR, "Expected"⟩, none)
    | _ => (⟨.tERROR, "Syntax error"⟩, none)
  | _ => (⟨.tERROR, "Expected"⟩, none)

/-- lexDefault from lex.go, driving the whole state machine: produces
the emitted item sequence.  Fuel bounds the number of emitted tokens;
`runLexer` supplies enough fuel that the marker item below is never
reached on the inputs considered here. -/
def lexAll : Nat → List Char → List Item
  | 0, _ => [⟨.tERROR, "lexer out of fuel"⟩]
  | fuel + 1, cs =>
    match cs with
    | [] => [eofItem]
    | c :: rest =>
      if isSpace c then lexAll fuel rest
      else
        match single c with
        | some t => ⟨t, String.mk [c]⟩ :: lexAll fuel rest
        | none =>
          if c = '^' then
            let p := gatherID rest
            if p.1.data.isEmpty then
              [⟨.tCARET, "^"⟩, ⟨.tERROR, "Syntax error"⟩]
            else ⟨.tCARET, "^"⟩ :: ⟨.tNAME, p.1⟩ :: lexAll fuel p.2
          else if c = '/' then
            match rest with
            | '/' :: r2 => lexAll fuel (r2.dropWhile (fun d => d ≠ '\n'))
            | _ => [⟨.tERROR, "expected slash"⟩]
          else if c = '=' then
            let p := litSpan false rest
            ⟨.tEQUAL, "="⟩ :: ⟨.tLITERAL, String.mk p.1⟩ :: lexAll fuel p.2
          else if isAlpha c || isDigit c || c = '_' then
            let p := nameSpan true (c :: rest)
            ⟨.tNAME, String.mk p.1⟩ :: lexAll fuel p.2
          else if c = '@' then
            match lexGroup (c :: rest) with
            | (it, some r4) => it :: lexAll fuel r4
            | (it, none) => [it]
          else [⟨.tERROR, "Syntax error"⟩]

/-- Run the lexer on a whole input (the []byte buffer of slurp/newLexer),
with fuel ample for the input length. -/
def runLexer (cs : List Char) : List Item :=
  lexAll (cs.length + 1) cs

/-! ## The parser state (parse.go) -/

/-- Association-list lookup: the Go map read `m[k]`. -/
def alookup {α : Type} : List (String × α) → String → Option α
  | [], _ => none
  | (k, v) :: rest, key => if k = key then some v else alookup rest key

/-- Association-list update: the Go map write `m[k] = v` (overwrite in
place, append if absent). -/
def aset {α : Type} : List (String × α) → String → α → List (String × α)
  | [], key, v => [(key, v)]
  | (k, w) :: rest, key, v =>
    if k = key then (key, v) :: rest else (k, w) :: aset rest key v

/-- A Row / a cells map: map[string]string. -/
abbrev Cells := List (String × String)

/-- A single namespace's dictionary: map[string]string. -/
abbrev Dict := List (String × String)

/-- The parser's dicts field: map[namespace]map[id]value. -/
abbrev Dicts := List (String × Dict)

/-- The Table struct of parse.go. -/
structure Table where
  meta : Cells
  rows : List (String × Cells)
deriving DecidableEq, Repr

/-- The result collection of Parse: map[toid]Table. -/
abbrev Tabs := List (String × Table)

/-- Parser errors (the fmt.Errorf values of parse.go, structured). -/
inductive PErr where
  /-- resolve: "bad alias id:namespace". -/
  | badAlias (id ns : String)
  /-- Parse / expectGroup default case: "Unexpected tok". -/
  | unexpectedTok (it : Item)
  /-- expectID: "Not hex - tok". -/
  | notHex (it : Item)
deriving DecidableEq, Repr

/-- The parser struct of parse.go: the remaining token stream (lexer +
one-token peek buffer collapse into a list), the sticky error field, and
the namespace-keyed dictionaries.  The filename field only decorates
error messages and is omitted. -/
structure PState where
  toks : List Item
  err : Option PErr
  dicts : Dicts
deriving DecidableEq, Repr

/-- Outcome of one parser operation.  `halted` models `panic("poop")` in
expect() (parse.go has no recover, so the whole program aborts);
`fuel` is the model's out-of-fuel marker for the Go loops. -/
inductive Step (α : Type) where
  | ok (a : α) (s : PState)
  | halted
  | fuel
deriving DecidableEq, Repr

/-- A parser operation: state in, result and state out. -/
abbrev PM (α : Type) := PState → Step α

/-- Sequencing of parser operations (the implicit statement sequencing of
the Go methods on *parser). -/
def bnd {α β : Type} (m : PM α) (f : α → PM β) : PM β := fun s =>
  match m s with
  | .ok a s' => f a s'
  | .halted => .halted
  | .fuel => .fuel

/-- peekTok: the next token without consuming it (an exhausted stream
keeps yielding the EOF item). -/
def peekTok (s : PState) : Item :=
  match s.toks with
  | [] => eofItem
  | t :: _ => t

/-- nextTok: read and consume the next token. -/
def nextTokS (s : PState) : Item × PState :=
  match s.toks with
  | [] => (eofItem, s)
  | t :: ts => (t, { s with toks := ts })

/-- dict(namespace) from parse.go: ensure the namespace's dictionary
exists (creating it empty if required). -/
def ensureDict (ds : Dicts) (ns : String) : Dicts :=
  match alookup ds ns with
  | some _ => ds
  | none => aset ds ns []

/-- The dictionary currently stored for a namespace (empty if absent). -/
def dictGet (ds : Dicts) (ns : String) : Dict :=
  (alookup ds ns).getD []

/-- resolve(id, namespace) from parse.go: no-op returning "" when the
sticky error is set; otherwise look the id up in the namespace's
dictionary (creating the dictionary if absent), recording a bad-alias
error on a miss. -/
def resolve (id ns : String) : PM String := fun s =>
  if s.err.isSome then .ok "" s
  else
    match alookup (dictGet (ensureDict s.dicts ns) ns) id with
    | some v => .ok v { s with dicts := ensureDict s.dicts ns }
    | none =>
      .ok "" { s with dicts := ensureDict s.dicts ns,
                      err := some (.badAlias id ns) }

/-- expect(expected) from parse.go: a no-op returning the zero item when
the sticky error is set; otherwise consume one token, and on a kind
mismatch the source sets p.err and then unconditionally executes
`panic("poop")`, aborting the program (modelled as Step.halted). -/
def expect (expected : ItemType) : PM Item := fun s =>
  if s.err.isSome then .ok emptyItem s
  else if (nextTokS s).1.typ = expected then .ok (nextTokS s).1 (nextTokS s).2
  else .halted

/-- expectName from parse.go. -/
def expectName : PM String :=
  bnd (expect .tNAME) fun tok => fun s => .ok tok.val s

/-- expectID from parse.go: fetch a tNAME token and fail (sticky error,
empty result) unless every character is hexadecimal. -/
def expectID : PM String :=
  bnd (expect .tNAME) fun tok => fun s =>
    if s.err.isSome then .ok "" s
    else if tok.val.data.all isHex then .ok tok.val s
    else .ok "" { s with err := some (.notHex tok) }

/-- expectRef from parse.go: `^id` or `^id:ns`, resolved against the
(possibly defaulted) namespace. -/
def expectRef (defaultNamespace : String) : PM String :=
  bnd (expect .tCARET) fun _ =>
  bnd expectID fun id => fun s =>
    if (peekTok s).typ = .tCOLON then
      (bnd (fun s1 => .ok () (nextTokS s1).2) fun _ =>
       bnd (expect .tNAME) fun tok =>
       resolve id tok.val) s
    else resolve id defaultNamespace s

/-- expectOID from parse.go: a hex id with an optional `:scope`, the
scope given literally or through a reference; with no explicit scope the
returned scope is the empty string. -/
def expectOID (defaultNamespace : String) : PM (String × String) :=
  bnd expectID fun name => fun s =>
    if (peekTok s).typ = .tCOLON then
      (bnd (fun s1 => .ok () (nextTokS s1).2) fun _ => fun s2 =>
        if (peekTok s2).typ = .tCARET then
          (bnd (expectRef defaultNamespace) fun scope => fun s3 =>
            .ok (name, scope) s3) s2
        else
          (bnd (expect .tNAME) fun tok => fun s3 =>
            .ok (name, tok.val) s3) s2) s
    else .ok (name, "") s

/-- expectCell from parse.go: `( col slot )` with the column side
defaulting to namespace "c" for references and the slot side to "a". -/
def expectCell : PM (String × String) :=
  bnd (expect .tLPAREN) fun _ => fun s =>
  (bnd (if (peekTok s).typ = .tCARET then expectRef "c" else expectName)
    fun name => fun s1 =>
    (bnd (if (peekTok s1).typ = .tEQUAL then
            bnd (fun s2 => .ok () (nextTokS s2).2) fun _ =>
            bnd (expect .tLITERAL) fun lit => fun s3 => .ok lit.val s3
          else expectRef "a")
      fun v =>
      bnd (expect .tRPAREN) fun _ => fun s4 => .ok (name, v) s4) s1) s

/-- The loop of expectCells from parse.go, with its `out` accumulator:
zero or more cells, stopping before the first non-`(` token, and
returning the nil map as soon as the sticky error is set. -/
def expectCellsGo : Nat → Cells → PM Cells
  | 0, _ => fun _ => .fuel
  | n + 1, out => fun s =>
    if (peekTok s).typ = .tLPAREN then
      (bnd expectCell fun nv => fun s1 =>
        if s1.err.isSome then .ok [] s1
        else expectCellsGo n (aset out nv.1 nv.2) s1) s
    else .ok out s

/-- expectCells from parse.go. -/
def expectCells (fuel : Nat) : PM Cells :=
  expectCellsGo fuel []

/-- expectMetadict from parse.go. -/
def expectMetadict (fuel : Nat) : PM Cells :=
  bnd (expect .tLANGLE) fun _ =>
  bnd (expectCells fuel) fun cells =>
  bnd (expect .tRANGLE) fun _ => fun s => .ok cells s

/-- The scope computation at the head of expectDict: scope is "a" unless
an optional metadict defines a cell named "a". -/
def dictScope (fuel : Nat) : PM String := fun s =>
  if (peekTok s).typ = .tLANGLE then
    (bnd (expectMetadict fuel) fun meta => fun s1 =>
      match alookup meta "a" with
      | some a => .ok a s1
      | none => .ok "a" s1) s
  else .ok "a" s

/-- The `for k, v := range cells` merge loop of expectDict. -/
def mergeCells (d : Dict) : Cells → Dict
  | [] => d
  | (k, v) :: rest => mergeCells (aset d k v) rest

/-- The dictionary update at the end of expectDict: `targ := p.dict(scope)`
followed by writing every cell into targ (targ lives inside p.dicts). -/
def applyDictUpd (s : PState) (scope : String) (cells : Cells) : PState :=
  { s with dicts := aset s.dicts scope (mergeCells (dictGet s.dicts scope) cells) }

/-- expectDict from parse.go: `< metadict? cell* >`; the cells are merged
into the target dictionary only when no error is set at the end. -/
def expectDict (fuel : Nat) : PM Unit :=
  bnd (expect .tLANGLE) fun _ =>
  bnd (dictScope fuel) fun scope =>
  bnd (expectCells fuel) fun cells =>
  bnd (expect .tRANGLE) fun _ => fun s =>
    if s.err.isSome then .ok () s
    else .ok () (applyDictUpd s scope cells)

/-- expectRow from parse.go: `[ roid cell* ]`, returning the row id and
its cells. -/
def expectRow (rowScope : String) (fuel : Nat) : PM (String × Cells) :=
  bnd (expect .tLSQUARE) fun _ =>
  bnd (expectOID rowScope) fun roid =>
  bnd (expectCells fuel) fun cells =>
  bnd (expect .tRSQUARE) fun _ => fun s => .ok (roid.1, cells) s

/-- The skip-to-closing-brace loop after a metatable's cells in
expectTable: returns `true` when the loop ran `return toid, Table{}`
because the sticky error was set. -/
def skipMeta : Nat → PM Bool
  | 0 => fun _ => .fuel
  | n + 1 => fun s =>
    if s.err.isSome then .ok true s
    else
      let p := nextTokS s
      if p.1.typ = .tRBRACE then .ok false p.2
      else skipMeta n p.2

/-- The row loop of expectTable: dispatches on the peeked token kind with
cases only for `}` (end), `[` (row) and a bare name (consumed and
ignored); any other kind matches no case and the Go loop spins forever
without consuming (reflected here as fuel exhaustion). -/
def tableRows : Nat → String → String → Table → PM (String × Table)
  | 0, _, _, _ => fun _ => .fuel
  | n + 1, toid, tscope, tab => fun s =>
    match (peekTok s).typ with
    | .tRBRACE => .ok (toid, tab) (nextTokS s).2
    | .tLSQUARE =>
      (bnd (expectRow tscope n) fun rd =>
        tableRows n toid tscope { tab with rows := aset tab.rows rd.1 rd.2 }) s
    | .tNAME => tableRows n toid tscope tab (nextTokS s).2
    | _ => tableRows n toid tscope tab s

/-- expectTable from parse.go: `{ toid metatable? (row | NAME)* }`.  The
id and scope are coalesced into the key `id ++ ":" ++ scope`. -/
def expectTable (fuel : Nat) : PM (String × Table) :=
  bnd (expect .tLBRACE) fun _ =>
  bnd (expectOID "c") fun oid => fun s =>
    let toid := oid.1 ++ ":" ++ oid.2
    if (peekTok s).typ = .tLBRACE then
      (bnd (fun s1 => .ok () (nextTokS s1).2) fun _ =>
       bnd (expectCells fuel) fun meta =>
       bnd (skipMeta fuel) fun aborted => fun s2 =>
         if aborted then .ok (toid, ⟨[], []⟩) s2
         else tableRows fuel toid oid.2 ⟨meta, []⟩ s2) s
    else tableRows fuel toid oid.2 ⟨[], []⟩ s

/-- The dispatch loop of expectGroup from parse.go, carrying its local
tabs accumulator: EOF is treated as a group abort, commit returns the
accumulated tables, abort returns an empty map, and after every other
construct the sticky error is checked. -/
def groupLoop : Nat → Tabs → PM Tabs
  | 0, _ => fun _ => .fuel
  | n + 1, tabs => fun s =>
    let tok := peekTok s
    match tok.typ with
    | .tEOF => .ok [] s
    | .tLANGLE =>
      (bnd (expectDict n) fun _ => fun s1 =>
        if s1.err.isSome then .ok tabs s1 else groupLoop n tabs s1) s
    | .tLSQUARE =>
      (bnd (expectRow "c" n) fun _ => fun s1 =>
        if s1.err.isSome then .ok tabs s1 else groupLoop n tabs s1) s
    | .tLBRACE =>
      (bnd (expectTable n) fun tt => fun s1 =>
        if s1.err.isSome then .ok (aset tabs tt.1 tt.2) s1
        else groupLoop n (aset tabs tt.1 tt.2) s1) s
    | .tGROUPCOMMIT =>
      (bnd (expect .tGROUPCOMMIT) fun _ => fun s1 => .ok tabs s1) s
    | .tGROUPABORT =>
      (bnd (expect .tGROUPABORT) fun _ => fun s1 => .ok [] s1) s
    | _ => .ok tabs { s with err := some (.unexpectedTok tok) }

/-- expectGroup from parse.go. -/
def expectGroup (fuel : Nat) : PM Tabs :=
  bnd (expect .tGROUPSTART) fun _ => groupLoop fuel []

/-- The top-level loop of Parse from parse.go, carrying the result map:
note that in the tGROUPSTART case the source discards expectGroup's
returned tables (`_ = p.expectGroup()`). -/
def ParseLoop : Nat → Tabs → PM Tabs
  | 0, _ => fun _ => .fuel
  | n + 1, tabs => fun s =>
    let tok := peekTok s
    match tok.typ with
    | .tEOF => .ok tabs s
    | .tLANGLE =>
      (bnd (expectDict n) fun _ => fun s1 =>
        if s1.err.isSome then .ok tabs s1 else ParseLoop n tabs s1) s
    | .tLSQUARE =>
      (bnd (expectRow "c" n) fun _ => fun s1 =>
        if s1.err.isSome then .ok tabs s1 else ParseLoop n tabs s1) s
    | .tLBRACE =>
      (bnd (expectTable n) fun tt => fun s1 =>
        if s1.err.isSome then .ok (aset tabs tt.1 tt.2) s1
        else ParseLoop n (aset tabs tt.1 tt.2) s1) s
    | .tGROUPSTART =>
      (bnd (expectGroup n) fun _ => fun s1 =>
        if s1.err.isSome then .ok tabs s1 else ParseLoop n tabs s1) s
    | _ => .ok tabs { s with err := some (.unexpectedTok tok) }

/-- Parse from parse.go, run on a token stream: the final tabs and (in
the final state) the sticky error. -/
def mParse (toks : List Item) (fuel : Nat) : Step Tabs :=
  ParseLoop fuel [] ⟨toks, none, []⟩

/-- The observable outcome of parsing one file (slurp in the CLI glue):
the table map plus the returned error, or an abnormal program abort, or
(model only) fuel exhaustion standing for a run that never returns. -/
inductive Outcome where
  | done (tabs : Tabs) (err : Option PErr)
  | panicked
  | fuelOut
deriving DecidableEq, Repr

/-- End-to-end run: lex the byte buffer, parse the token stream. -/
def runMork (input : List Char) (fuel : Nat) : Outcome :=
  match mParse (runLexer input) fuel with
  | .ok tabs s => .done tabs s.err
  | .halted => .panicked
  | .fuel => .fuelOut

/-! ## Concrete inputs used by the claims -/

/-- The byte buffer `@$${1{@<(61=x)>@$$}~~}@{2[3(n^61)]}`: a group whose
body defines dictionary entry 61 -> "x" in namespace "a", ended by the
abort marker, followed by a table whose row cell references `^61`. -/
def inputC1abort : List Char :=
  ['@', '$', '$', '{', '1', '{', '@', '<', '(', '6', '1', '=', 'x', ')', '>', '@', '$', '$', '}', '~', '~', '}', '@', '{', '2', '[', '3', '(', 'n', '^', '6', '1', ')', ']', '}']

/-- The byte buffer `@$${1{@{2[3(n=v)]}@$$}5}@`: a group whose body
defines a table, ended by the commit marker. -/
def inputC1commit : List Char :=
  ['@', '$', '$', '{', '1', '{', '@', '{', '2', '[', '3', '(', 'n', '=', 'v', ')', ']', '}', '@', '$', '$', '}', '5', '}', '@']

/-- The byte buffer `<]`: a dict construct whose closing `>` is an `]`
instead (token-kind mismatch in expect). -/
def inputC2 : List Char :=
  ['<', ']']

/-- The byte buffer `{1[2(n^ff)]}`: a table whose row cell holds the
unresolvable reference `^ff`. -/
def inputC3 : List Char :=
  ['{', '1', '[', '2', '(', 'n', '^', 'f', 'f', ')', ']', '}']

/-- The byte buffer `<(name =Alice)>{10{(owner=Alice)}[20(name=Bob)]}`. -/
def inputC4 : List Char :=
  ['<', '(', 'n', 'a', 'm', 'e', ' ', '=', 'A', 'l', 'i', 'c', 'e', ')', '>', '{', '1', '0', '{', '(', 'o', 'w', 'n', 'e', 'r', '=', 'A', 'l', 'i', 'c', 'e', ')', '}', '[', '2', '0', '(', 'n', 'a', 'm', 'e', '=', 'B', 'o', 'b', ')', ']', '}']

/-- The byte buffer `<<(a=c)>(0a=foo)>{1:^0ag[2(n=v)]}`: the dict maps
0a -> "foo" in namespace "c"; the table oid's scope is the reference
`^0ag`, whose id contains the non-hex character `g`. -/
def inputC5 : List Char :=
  ['<', '<', '(', 'a', '=', 'c', ')', '>', '(', '0', 'a', '=', 'f', 'o', 'o', ')', '>', '{', '1', ':', '^', '0', 'a', 'g', '[', '2', '(', 'n', '=', 'v', ')', ']', '}']

/-- The byte buffer `@$${1{@(`: a group whose body starts with a token
(`(`) that matches no dispatch case, the input ending before any
commit/abort marker. -/
def inputC7 : List Char :=
  ['@', '$', '$', '{', '1', '{', '@', '(']

/-- The cells-map accumulation of the expectCells loop, as a function of
the cell sequence alone: each parsed `(name, value)` pair is written
into the accumulator with `aset`, in source order (`out[name] = val`). -/
def cellsAccGo (acc : Cells) : List (String × String) → Cells
  | [] => acc
  | kv :: rest => cellsAccGo (aset acc kv.1 kv.2) rest

/-- The cells map produced from a sequence of cells (accumulated from
the empty map, as in expectCells). -/
def cellsAcc (cs : List (String × String)) : Cells :=
  cellsAccGo [] cs

/-- Two dicts collections agree on every (namespace, id) entry (the
creation of empty namespaces by p.dict is not an observable entry). -/
def EntriesEq (d1 d2 : Dicts) : Prop :=
  ∀ ns id, alookup (dictGet d1 ns) id = alookup (dictGet d2 ns) id

/-- A parser operation whose successful runs never add or modify any
(namespace, id -> value) dictionary entry. -/
def PreservesDicts {α : Type} (m : PM α) : Prop :=
  ∀ s a s', m s = Step.ok a s' → EntriesEq s'.dicts s.dicts

/-- The token stream of a table construct `{id:sc[rid(c=v)]}`: oid with
an explicit literal scope, one row with one literal cell. -/
def tableToks (id sc rid c v : String) : List Item :=
  [⟨.tLBRACE, "\x7b"⟩, ⟨.tNAME, id⟩, ⟨.tCOLON, ":"⟩, ⟨.tNAME, sc⟩,
   ⟨.tLSQUARE, "["⟩, ⟨.tNAME, rid⟩, ⟨.tLPAREN, "("⟩, ⟨.tNAME, c⟩,
   ⟨.tEQUAL, "="⟩, ⟨.tLITERAL, v⟩, ⟨.tRPAREN, ")"⟩, ⟨.tRSQUARE, "]"⟩,
   ⟨.tRBRACE, "\x7d"⟩]

/-- Sample table contents used to observe replacement: one row "11"
with cell (x, "1"). -/
def tA : Table := ⟨[], [("11", [("x", "1")])]⟩

/-- Sample table contents used to observe replacement: one row "22"
with cell (y, "2"). -/
def tB : Table := ⟨[], [("22", [("y", "2")])]⟩

/-- The token stream of inputC3. -/
def toksC3 : List Item := runLexer inputC3

/-- The parser state reached inside `{1[2(n^ff)]}` right after the
bad-alias error is recorded: the `)` has not been consumed (expect is a
no-op under the sticky error), and the error is set. -/
def stuckC3 : PState :=
  ⟨[⟨.tRPAREN, ")"⟩, ⟨.tRSQUARE, "]"⟩, ⟨.tRBRACE, "\x7d"⟩, eofItem],
    some (.badAlias "ff" "a"), [("a", [])]⟩

/-! ## Theorems -/

/-- The row loop of expectTable matches no case for a peeked token other
than `}` `[` or a name, and then loops forever without consuming
anything: in the fueled model it exhausts any amount of fuel. -/
theorem tableRows_stuck (toid tscope : String) (tab : Table) (s : PState)
    (h1 : (peekTok s).typ ≠ .tRBRACE) (h2 : (peekTok s).typ ≠ .tLSQUARE)
    (h3 : (peekTok s).typ ≠ .tNAME) :
    ∀ n, tableRows n toid tscope tab s = Step.fuel := by
  intro n
  induction n with
  | zero => rfl
  | succ k ih =>
    cases htyp : (peekTok s).typ <;>
      first
        | exact absurd htyp h1
        | exact absurd htyp h2
        | exact absurd htyp h3
        | simpa [tableRows, htyp] using ih

/-- Running expectTable on the token stream of `{1[2(n^ff)]}` exhausts
any fuel: the prefix up to the bad-alias error computes definitionally,
landing the row loop on the unconsumed `)`. -/
theorem expectTable_C3 (n : Nat) :
    expectTable (n + 2) ⟨toksC3, none, []⟩ = Step.fuel :=
  tableRows_stuck "1:" "" ⟨[], [("2", [])]⟩ stuckC3
    (by decide) (by decide) (by decide) n

/-- If the peeked token opens a table and expectTable exhausts its fuel,
the top-level loop exhausts its fuel as well. -/
theorem ParseLoop_fuel_of_expectTable (n : Nat) (tabs : Tabs) (s : PState)
    (hp : (peekTok s).typ = .tLBRACE) (h : expectTable n s = Step.fuel) :
    ParseLoop (n + 1) tabs s = Step.fuel := by
  simp only [ParseLoop, hp]
  simp [bnd, h]

/-- C3: the claim says every parse terminates (normally or at the first
sticky error).  The code violates it: expectTable's row loop neither
checks the sticky error nor has a default case, so on the input
`{1[2(n^ff)]}` (an unresolved reference inside a table body) the loop
peeks the unconsumed `)` forever.  In the fueled model, the run returns
the out-of-fuel marker for every fuel value. -/
theorem c3_parse_diverges : ∀ fuel, runMork inputC3 fuel = Outcome.fuelOut := by
  intro fuel
  match fuel with
  | 0 => rfl
  | 1 => rfl
  | 2 => rfl
  | n + 3 =>
    have h := ParseLoop_fuel_of_expectTable (n + 2) [] ⟨toksC3, none, []⟩
      (by decide) (expectTable_C3 n)
    unfold runMork
    rw [show mParse (runLexer inputC3) (n + 3) =
          ParseLoop ((n + 2) + 1) [] ⟨toksC3, none, []⟩ from rfl, h]

/-- C1: Group atomicity.  The code violates it, as its own TODO comments
in expectGroup admit: dictionary mutations inside a group are applied
directly to the parser-global dicts (an abort does not roll them back),
and Parse discards the tables expectGroup returns even on commit.
Evaluating the code at the failing inputs: after a group that defines
dictionary entry 61 -> "x" and then ABORTS, a later `^61` reference
still resolves to "x" (the row cell below holds "x", and no bad-alias
error is set); and after a group that defines table `2` and then
COMMITS, the result map is empty. -/
theorem c1_group_mutations_not_buffered :
    runMork inputC1abort 100 =
      Outcome.done [("2:", ⟨[], [("3", [("n", "x")])]⟩)] none ∧
    runMork inputC1commit 100 = Outcome.done [] none :=
  ⟨rfl, rfl⟩

/-- C2: on a token-kind mismatch the parse is claimed to terminate
normally with a syntax-error value; the code instead executes
`panic("poop")` in expect (parse.go line 120), contradicting expect's
own doc comment ("Otherwise an empty item will be returned, and p.err
will be set").  Evaluating the code at the failing input `<]`: the
program aborts abnormally. -/
theorem c2_syntax_error_panics :
    runMork inputC2 50 = Outcome.panicked :=
  rfl

/-- C4: parsing `<(name =Alice)>{10{(owner=Alice)}[20(name=Bob)]}` is
claimed to yield the single table keyed "10:c".  The code's own grammar
comments say the default scope of a table oid is "c", but expectOID
returns the empty scope when no colon follows the id, so the key
produced is "10:".  Evaluating the code at the input: one table, keyed
"10:", with the claimed meta and row. -/
theorem c4_table_key_empty_scope :
    runMork inputC4 100 =
      Outcome.done
        [("10:", ⟨[("owner", "Alice")], [("20", [("name", "Bob")])]⟩)] none :=
  rfl

/-- C5 counterexample: the input `<<(a=c)>(0a=foo)>{1:^0ag[2(n=v)]}`
contains the reference `^0ag` whose identifier has the non-hex character
`g`; the claim says such a parse fails with an invalid-identifier error
and never truncates.  Instead the parse SUCCEEDS with no error: the
lexer truncates the id to its hex prefix `0a` (which resolves to "foo",
visible in the table key "1:foo") and the leftover `g` is consumed as a
separate name token by the table's row loop. -/
theorem c5_caret_id_truncated_counterexample :
    runMork inputC5 100 =
      Outcome.done [("1:foo", ⟨[], [("2", [("n", "v")])]⟩)] none :=
  rfl

/-- C7 counterexample: the input `@$${1{@(` enters a group and reaches
end-of-input with no commit/abort token, so by the claim the parse
should return successfully with no error; instead the `(` matches no
case of the group dispatch and the parse returns an unexpected-token
error. -/
theorem c7_truncated_group_counterexample :
    runMork inputC7 50 =
      Outcome.done [] (some (.unexpectedTok ⟨.tLPAREN, "("⟩)) :=
  rfl

/-- C7 amended: if, inside a group, end-of-input is reached at the group
dispatch level (every construct inside the group body having completed
and no commit/abort marker seen), the group is treated as an abort: its
accumulated tables are discarded, no error is recorded, and the
top-level loop at end-of-input returns exactly the tables accumulated
before the group.  (A group body whose own construct is ill-formed or
truncated instead errors, panics, or never returns.) -/
theorem c7_amended_truncated_group (s : PState) (gacc tabs : Tabs) (n : Nat)
    (he : s.err = none) (hp : (peekTok s).typ = .tEOF) :
    groupLoop (n + 1) gacc s = Step.ok [] s ∧
    ParseLoop (n + 1) tabs s = Step.ok tabs s ∧ s.err = none := by
  refine ⟨?_, ?_, he⟩
  · simp only [groupLoop, hp]
  · simp only [ParseLoop, hp]

/-- Witness for C7 amended: a state at end-of-input with a nonempty
group accumulator and a nonempty pre-group table map. -/
theorem c7_amended_truncated_group_witness :
    groupLoop 1 [("9:", ⟨[], []⟩)] ⟨[eofItem], none, []⟩ =
      Step.ok [] ⟨[eofItem], none, []⟩ ∧
    ParseLoop 1 [("2:q", ⟨[], [("3", [("a", "b")])]⟩)] ⟨[eofItem], none, []⟩ =
      Step.ok [("2:q", ⟨[], [("3", [("a", "b")])]⟩)] ⟨[eofItem], none, []⟩ ∧
    (⟨[eofItem], none, []⟩ : PState).err = none :=
  c7_amended_truncated_group ⟨[eofItem], none, []⟩ [("9:", ⟨[], []⟩)]
    [("2:q", ⟨[], [("3", [("a", "b")])]⟩)] 0 rfl rfl

/-- C5 amended: a bare table/row oid goes through expectID, which
records a not-hex error (and returns the empty id) whenever the name
token contains any non-hexadecimal character — no truncation; but an id
written after `^` is cut short by the lexer: gatherID takes exactly the
leading hexadecimal run of the remaining input, so a non-hex character
there silently ends the id and the remainder is lexed as separate
tokens. -/
theorem c5_amended_hex_validation :
    (∀ (s : PState) (v : String) (rest : List Item),
      s.err = none → s.toks = ⟨.tNAME, v⟩ :: rest → v.data.all isHex = false →
      expectID s = Step.ok "" ⟨rest, some (.notHex ⟨.tNAME, v⟩), s.dicts⟩) ∧
    (∀ cs : List Char,
      gatherID cs = (String.mk (cs.takeWhile isHex), cs.dropWhile isHex)) := by
  constructor
  · intro s v rest he hts hv
    simp [expectID, bnd, expect, nextTokS, he, hts, hv]
  · intro cs
    induction cs with
    | nil => rfl
    | cons c cs ih =>
      by_cases h : isHex c = true
      · simp [gatherID, List.takeWhile_cons, List.dropWhile_cons, h, ih]
      · simp only [Bool.not_eq_true] at h
        simp [gatherID, List.takeWhile_cons, List.dropWhile_cons, h]

/-- Witness for C5 amended: expectID on the name token "0g" records the
not-hex error, and gatherID on `0ag` stops at the `g`. -/
theorem c5_amended_hex_validation_witness :
    expectID ⟨[⟨.tNAME, "0g"⟩, eofItem], none, []⟩ =
      Step.ok "" ⟨[eofItem], some (.notHex ⟨.tNAME, "0g"⟩), []⟩ ∧
    gatherID ['0', 'a', 'g'] =
      (String.mk (['0', 'a', 'g'].takeWhile isHex), ['0', 'a', 'g'].dropWhile isHex) :=
  ⟨c5_amended_hex_validation.1 ⟨[⟨.tNAME, "0g"⟩, eofItem], none, []⟩ "0g"
      [eofItem] rfl rfl (by decide),
    c5_amended_hex_validation.2 ['0', 'a', 'g']⟩

/-- Looking up the key just written by aset yields the written value. -/
theorem alookup_aset_self {α : Type} (l : List (String × α)) (k : String) (v : α) :
    alookup (aset l k v) k = some v := by
  induction l with
  | nil => simp [aset, alookup]
  | cons p rest ih =>
    by_cases h : p.1 = k
    · simp [aset, alookup, h]
    · simp [aset, alookup, h, ih]

/-- aset leaves the lookup of every other key unchanged. -/
theorem alookup_aset_ne {α : Type} (l : List (String × α)) (k k' : String)
    (v : α) (h : k' ≠ k) : alookup (aset l k' v) k = alookup l k := by
  induction l with
  | nil => simp [aset, alookup, h]
  | cons p rest ih =>
    by_cases hp : p.1 = k'
    · simp [aset, alookup, hp, h]
    · simp [aset, alookup, hp, ih]

/-- Every pair of an aset result either carries the written key or was
already present. -/
theorem mem_aset {α : Type} (l : List (String × α)) (k : String) (v : α)
    (q : String × α) (hq : q ∈ aset l k v) : q.1 = k ∨ q ∈ l := by
  induction l with
  | nil =>
    simp [aset] at hq
    simp [hq]
  | cons r rr ih =>
    by_cases hr : r.1 = k
    · rw [aset, if_pos hr] at hq
      rcases List.mem_cons.1 hq with hq | hq
      · left; rw [hq]
      · right; exact List.mem_cons_of_mem r hq
    · rw [aset, if_neg hr] at hq
      rcases List.mem_cons.1 hq with hq | hq
      · right; rw [hq]; exact List.mem_cons_self r rr
      · rcases ih hq with hx | hx
        · left; exact hx
        · right; exact List.mem_cons_of_mem r hx

/-- aset preserves key-uniqueness of an association list. -/
theorem keysND_aset {α : Type} (l : List (String × α)) (k : String) (v : α)
    (h : (l.map Prod.fst).Nodup) : ((aset l k v).map Prod.fst).Nodup := by
  induction l with
  | nil => simp [aset]
  | cons p rest ih =>
    by_cases hp : p.1 = k
    · rw [aset, if_pos hp]
      simpa [← hp] using h
    · simp only [List.map_cons, List.nodup_cons] at h
      rw [aset, if_neg hp]
      simp only [List.map_cons, List.nodup_cons]
      refine ⟨?_, ih h.2⟩
      intro hc
      rcases List.mem_map.1 hc with ⟨q, hq, hq1⟩
      rcases mem_aset rest k v q hq with hx | hx
      · exact hp (hq1 ▸ hx)
      · exact h.1 (hq1 ▸ List.mem_map_of_mem Prod.fst hx)

/-- cellsAccGo distributes over list append. -/
theorem cellsAccGo_append (acc : Cells) (l1 l2 : List (String × String)) :
    cellsAccGo acc (l1 ++ l2) = cellsAccGo (cellsAccGo acc l1) l2 := by
  induction l1 generalizing acc with
  | nil => simp [cellsAccGo]
  | cons kv rest ih => simp [cellsAccGo, ih]

/-- The accumulated cells map always has pairwise-distinct keys. -/
theorem keysND_cellsAccGo (cs : List (String × String)) (acc : Cells)
    (h : (acc.map Prod.fst).Nodup) :
    ((cellsAccGo acc cs).map Prod.fst).Nodup := by
  induction cs generalizing acc with
  | nil => exact h
  | cons kv rest ih => exact ih _ (keysND_aset _ _ _ h)

/-- The last cell written for a key determines its accumulated value. -/
theorem alookup_cellsAcc_last (l : List (String × String)) (id v : String) :
    alookup (cellsAcc (l ++ [(id, v)])) id = some v := by
  rw [cellsAcc, cellsAccGo_append]
  simp only [cellsAccGo]
  exact alookup_aset_self _ _ _

/-- Merging a cells map whose keys avoid an id leaves that id's
dictionary lookup unchanged. -/
theorem mergeCells_not_mem (m : Cells) (id : String) :
    id ∉ m.map Prod.fst →
    ∀ d : Dict, alookup (mergeCells d m) id = alookup d id := by
  induction m with
  | nil => intro _ d; rfl
  | cons kv rest ih =>
    intro h d
    simp only [List.map_cons, List.mem_cons] at h
    push_neg at h
    rw [mergeCells, ih h.2 (aset d kv.1 kv.2),
      alookup_aset_ne d id kv.1 kv.2 (Ne.symm h.1)]

/-- Merging a key-unique cells map makes each of its entries current in
the target dictionary. -/
theorem mergeCells_lookup (m : Cells) (id v : String) :
    (m.map Prod.fst).Nodup → alookup m id = some v →
    ∀ d : Dict, alookup (mergeCells d m) id = some v := by
  induction m with
  | nil =>
    intro _ hl
    simp [alookup] at hl
  | cons kv rest ih =>
    intro hnd hl d
    simp only [List.map_cons, List.nodup_cons] at hnd
    by_cases h : kv.1 = id
    · rw [alookup, if_pos h] at hl
      rw [mergeCells, mergeCells_not_mem rest id (h ▸ hnd.1) (aset d kv.1 kv.2),
        h, alookup_aset_self, hl]
    · rw [alookup, if_neg h] at hl
      rw [mergeCells]
      exact ih hnd.2 hl (aset d kv.1 kv.2)

/-- resolve, run right after a dict construct merged a key-unique cells
map containing the id, returns that cells map's value for the id and
leaves the state untouched. -/
theorem resolve_applyDictUpd (s : PState) (ns id v : String) (cs : Cells)
    (he : s.err = none) (hnd : (cs.map Prod.fst).Nodup)
    (hl : alookup cs id = some v) :
    resolve id ns (applyDictUpd s ns cs) = Step.ok v (applyDictUpd s ns cs) := by
  have hD : alookup (aset s.dicts ns (mergeCells ((alookup s.dicts ns).getD []) cs)) ns
      = some (mergeCells ((alookup s.dicts ns).getD []) cs) :=
    alookup_aset_self _ _ _
  have hv : alookup (mergeCells ((alookup s.dicts ns).getD []) cs) id = some v :=
    mergeCells_lookup cs id v hnd hl _
  simp [resolve, applyDictUpd, dictGet, ensureDict, he, hD, hv]

/-- C6: last-write-wins for dictionary defines.  For any cell sequences,
defining `(id, ns)` and then redefining it with a new value — across two
dict-construct merges (first conjunct) or within a single construct's
accumulated cells (second conjunct) — a subsequent resolve returns the
latest value, with no history retained. -/
theorem c6_last_write_wins (s : PState) (ns id v1 v2 : String)
    (pre mid : List (String × String)) (he : s.err = none) :
    resolve id ns
        (applyDictUpd (applyDictUpd s ns (cellsAcc (pre ++ [(id, v1)]))) ns
          (cellsAcc (mid ++ [(id, v2)]))) =
      Step.ok v2
        (applyDictUpd (applyDictUpd s ns (cellsAcc (pre ++ [(id, v1)]))) ns
          (cellsAcc (mid ++ [(id, v2)]))) ∧
    resolve id ns
        (applyDictUpd s ns (cellsAcc ((pre ++ [(id, v1)] ++ mid) ++ [(id, v2)]))) =
      Step.ok v2
        (applyDictUpd s ns (cellsAcc ((pre ++ [(id, v1)] ++ mid) ++ [(id, v2)]))) := by
  constructor
  · exact resolve_applyDictUpd _ ns id v2 _ he
      (keysND_cellsAccGo _ [] (by simp))
      (alookup_cellsAcc_last mid id v2)
  · exact resolve_applyDictUpd _ ns id v2 _ he
      (keysND_cellsAccGo _ [] (by simp))
      (alookup_cellsAcc_last _ id v2)

/-- Witness for C6 at concrete cell sequences (the redefinition of id 61
from "x" to "y" wins in both shapes). -/
theorem c6_last_write_wins_witness :
    resolve "61" "a" ⟨[], none, [("a", [("aa", "p"), ("61", "y"), ("bb", "q")])]⟩ =
      Step.ok "y" ⟨[], none, [("a", [("aa", "p"), ("61", "y"), ("bb", "q")])]⟩ ∧
    resolve "61" "a" ⟨[], none, [("a", [("aa", "p"), ("61", "y"), ("bb", "q")])]⟩ =
      Step.ok "y" ⟨[], none, [("a", [("aa", "p"), ("61", "y"), ("bb", "q")])]⟩ :=
  c6_last_write_wins ⟨[], none, []⟩ "a" "61" "x" "y" [("aa", "p")] [("bb", "q")] rfl

/-- C9: the sticky-error policy.  In any parser state with a recorded
error, expect is a no-op that consumes no token and returns the empty
item, and resolve is a no-op that returns the empty string; both leave
the state (including the first recorded error) unchanged. -/
theorem c9_sticky_error_noop (s : PState) (e : PErr) (t : ItemType)
    (id ns : String) (h : s.err = some e) :
    expect t s = Step.ok emptyItem s ∧ resolve id ns s = Step.ok "" s := by
  constructor
  · simp [expect, h]
  · simp [resolve, h]

/-- Witness for C9 at a concrete error state. -/
theorem c9_sticky_error_noop_witness :
    expect .tNAME ⟨[⟨.tLPAREN, "("⟩], some (.badAlias "ff" "a"), []⟩ =
      Step.ok emptyItem ⟨[⟨.tLPAREN, "("⟩], some (.badAlias "ff" "a"), []⟩ ∧
    resolve "0" "a" ⟨[⟨.tLPAREN, "("⟩], some (.badAlias "ff" "a"), []⟩ =
      Step.ok "" ⟨[⟨.tLPAREN, "("⟩], some (.badAlias "ff" "a"), []⟩ :=
  c9_sticky_error_noop ⟨[⟨.tLPAREN, "("⟩], some (.badAlias "ff" "a"), []⟩
    (.badAlias "ff" "a") .tNAME "0" "a" rfl

theorem entriesEq_refl (d : Dicts) : EntriesEq d d :=
  fun _ _ => rfl

theorem entriesEq_trans {d1 d2 d3 : Dicts} (h1 : EntriesEq d1 d2)
    (h2 : EntriesEq d2 d3) : EntriesEq d1 d3 :=
  fun ns id => (h1 ns id).trans (h2 ns id)

/-- Creating a namespace's (empty) dictionary adds no entry. -/
theorem entriesEq_ensure (ds : Dicts) (ns : String) :
    EntriesEq (ensureDict ds ns) ds := by
  intro ns' id
  unfold ensureDict
  cases hl : alookup ds ns with
  | some d => rfl
  | none =>
    by_cases hns : ns' = ns
    · subst hns
      rw [dictGet, dictGet, alookup_aset_self, hl]
      rfl
    · rw [dictGet, dictGet, alookup_aset_ne ds ns' ns [] (Ne.symm hns)]

/-- nextTok never touches the dictionaries. -/
theorem nextTok_dicts (s : PState) : (nextTokS s).2.dicts = s.dicts := by
  cases s with
  | mk toks err dicts => cases toks <;> rfl

theorem preserves_bnd {α β : Type} (m : PM α) (f : α → PM β)
    (hm : PreservesDicts m) (hf : ∀ a, PreservesDicts (f a)) :
    PreservesDicts (bnd m f) := by
  intro s b s' h
  unfold bnd at h
  cases hm' : m s with
  | ok a s1 =>
    rw [hm'] at h
    exact entriesEq_trans (hf a s1 b s' h) (hm s a s1 hm')
  | halted => rw [hm'] at h; exact Step.noConfusion h
  | fuel => rw [hm'] at h; exact Step.noConfusion h

theorem preserves_expect (t : ItemType) : PreservesDicts (expect t) := by
  intro s a s' h
  unfold expect at h
  split at h
  · injection h with _ h2
    rw [← h2]
    exact entriesEq_refl _
  · split at h
    · injection h with _ h2
      rw [← h2, nextTok_dicts]
      exact entriesEq_refl _
    · exact Step.noConfusion h

theorem preserves_resolve (id ns : String) : PreservesDicts (resolve id ns) := by
  intro s a s' h
  unfold resolve at h
  split at h
  · injection h with _ h2
    rw [← h2]
    exact entriesEq_refl _
  · split at h
    · injection h with _ h2
      rw [← h2]
      exact entriesEq_ensure _ _
    · injection h with _ h2
      rw [← h2]
      exact entriesEq_ensure _ _

theorem preserves_ret {α : Type} (x : α) :
    PreservesDicts (fun s => Step.ok x s) := by
  intro s a s' h
  injection h with _ h2
  rw [← h2]
  exact entriesEq_refl _

theorem preserves_next : PreservesDicts (fun s => Step.ok () (nextTokS s).2) := by
  intro s a s' h
  injection h with _ h2
  rw [← h2, nextTok_dicts]
  exact entriesEq_refl _

theorem preserves_expectName : PreservesDicts expectName :=
  preserves_bnd _ _ (preserves_expect _) (fun tok => preserves_ret tok.val)

theorem preserves_expectID : PreservesDicts expectID := by
  refine preserves_bnd _ _ (preserves_expect _) ?_
  intro tok s a s' h
  simp only [] at h
  split at h
  · injection h with _ h2
    rw [← h2]
    exact entriesEq_refl _
  · split at h
    · injection h with _ h2
      rw [← h2]
      exact entriesEq_refl _
    · injection h with _ h2
      rw [← h2]
      exact entriesEq_refl _

theorem preserves_expectRef (dns : String) : PreservesDicts (expectRef dns) := by
  refine preserves_bnd _ _ (preserves_expect _) ?_
  intro _
  refine preserves_bnd _ _ preserves_expectID ?_
  intro id s a s' h
  simp only [] at h
  by_cases hc : (peekTok s).typ = .tCOLON
  · rw [if_pos hc] at h
    refine preserves_bnd _ _ preserves_next ?_ s a s' h
    intro _
    exact preserves_bnd _ _ (preserves_expect _) (fun tok => preserves_resolve id tok.val)
  · rw [if_neg hc] at h
    exact preserves_resolve id dns s a s' h

theorem preserves_expectCell : PreservesDicts expectCell := by
  refine preserves_bnd _ _ (preserves_expect _) ?_
  intro _ s a s' h
  simp only [] at h
  by_cases hc : (peekTok s).typ = .tCARET
  · rw [if_pos hc] at h
    refine preserves_bnd _ _ (preserves_expectRef "c") ?_ s a s' h
    intro name s1 a1 s1' h1
    simp only [] at h1
    by_cases hc1 : (peekTok s1).typ = .tEQUAL
    · rw [if_pos hc1] at h1
      refine preserves_bnd _ _
        (preserves_bnd _ _ preserves_next (fun _ =>
          preserves_bnd _ _ (preserves_expect _) (fun lit => preserves_ret lit.val)))
        ?_ s1 a1 s1' h1
      intro v
      exact preserves_bnd _ _ (preserves_expect _) (fun _ => preserves_ret (name, v))
    · rw [if_neg hc1] at h1
      refine preserves_bnd _ _ (preserves_expectRef "a") ?_ s1 a1 s1' h1
      intro v
      exact preserves_bnd _ _ (preserves_expect _) (fun _ => preserves_ret (name, v))
  · rw [if_neg hc] at h
    refine preserves_bnd _ _ preserves_expectName ?_ s a s' h
    intro name s1 a1 s1' h1
    simp only [] at h1
    by_cases hc1 : (peekTok s1).typ = .tEQUAL
    · rw [if_pos hc1] at h1
      refine preserves_bnd _ _
        (preserves_bnd _ _ preserves_next (fun _ =>
          preserves_bnd _ _ (preserves_expect _) (fun lit => preserves_ret lit.val)))
        ?_ s1 a1 s1' h1
      intro v
      exact preserves_bnd _ _ (preserves_expect _) (fun _ => preserves_ret (name, v))
    · rw [if_neg hc1] at h1
      refine preserves_bnd _ _ (preserves_expectRef "a") ?_ s1 a1 s1' h1
      intro v
      exact preserves_bnd _ _ (preserves_expect _) (fun _ => preserves_ret (name, v))

theorem preserves_expectCellsGo (n : Nat) :
    ∀ acc, PreservesDicts (expectCellsGo n acc) := by
  induction n with
  | zero =>
    intro acc s a s' h
    exact Step.noConfusion h
  | succ k ih =>
    intro acc s a s' h
    rw [expectCellsGo] at h
    simp only [] at h
    by_cases hc : (peekTok s).typ = .tLPAREN
    · rw [if_pos hc] at h
      refine preserves_bnd _ _ preserves_expectCell ?_ s a s' h
      intro nv s1 a1 s1' h1
      simp only [] at h1
      by_cases he : s1.err.isSome
      · rw [if_pos he] at h1
        injection h1 with _ h2
        rw [← h2]
        exact entriesEq_refl _
      · rw [if_neg he] at h1
        exact ih _ s1 a1 s1' h1
    · rw [if_neg hc] at h
      injection h with _ h2
      rw [← h2]
      exact entriesEq_refl _

theorem preserves_expectMetadict (n : Nat) : PreservesDicts (expectMetadict n) :=
  preserves_bnd _ _ (preserves_expect _) (fun _ =>
    preserves_bnd _ _ (preserves_expectCellsGo n []) (fun cells =>
      preserves_bnd _ _ (preserves_expect _) (fun _ => preserves_ret cells)))

theorem preserves_dictScope (n : Nat) : PreservesDicts (dictScope n) := by
  intro s a s' h
  unfold dictScope at h
  by_cases hc : (peekTok s).typ = .tLANGLE
  · rw [if_pos hc] at h
    refine preserves_bnd _ _ (preserves_expectMetadict n) ?_ s a s' h
    intro meta s1 a1 s1' h1
    simp only [] at h1
    split at h1 <;>
      · injection h1 with _ h2
        rw [← h2]
        exact entriesEq_refl _
  · rw [if_neg hc] at h
    injection h with _ h2
    rw [← h2]
    exact entriesEq_refl _

/-- C10: dict-construct error atomicity.  If an error is recorded while
a single `<...>` construct is being parsed (the construct starting with
no error and finishing with the sticky error set), the construct adds or
modifies no (id -> value) entry in any dictionary: the cells stay in the
local buffer and the merge at the end of expectDict is skipped. -/
theorem c10_dict_error_atomicity (s : PState) (n : Nat) (s' : PState)
    (hs : s.err = none) (hrun : expectDict n s = Step.ok () s')
    (herr : s'.err.isSome = true) :
    ∀ ns id, alookup (dictGet s'.dicts ns) id = alookup (dictGet s.dicts ns) id := by
  unfold expectDict at hrun
  unfold bnd at hrun
  cases h1 : expect .tLANGLE s with
  | halted => rw [h1] at hrun; exact Step.noConfusion hrun
  | fuel => rw [h1] at hrun; exact Step.noConfusion hrun
  | ok a1 s1 =>
    rw [h1] at hrun
    simp only [] at hrun
    cases h2 : dictScope n s1 with
    | halted => rw [h2] at hrun; exact Step.noConfusion hrun
    | fuel => rw [h2] at hrun; exact Step.noConfusion hrun
    | ok scope s2 =>
      rw [h2] at hrun
      simp only [] at hrun
      cases h3 : expectCells n s2 with
      | halted => rw [h3] at hrun; exact Step.noConfusion hrun
      | fuel => rw [h3] at hrun; exact Step.noConfusion hrun
      | ok cells s3 =>
        rw [h3] at hrun
        simp only [] at hrun
        cases h4 : expect .tRANGLE s3 with
        | halted => rw [h4] at hrun; exact Step.noConfusion hrun
        | fuel => rw [h4] at hrun; exact Step.noConfusion hrun
        | ok a4 s4 =>
          rw [h4] at hrun
          simp only [] at hrun
          have chain : EntriesEq s4.dicts s.dicts :=
            entriesEq_trans (preserves_expect .tRANGLE s3 a4 s4 h4)
              (entriesEq_trans (preserves_expectCellsGo n [] s2 cells s3 h3)
                (entriesEq_trans (preserves_dictScope n s1 scope s2 h2)
                  (preserves_expect .tLANGLE s a1 s1 h1)))
          split at hrun
          · injection hrun with _ h5
            rw [← h5]
            exact chain
          · rename_i hns
            injection hrun with _ h5
            rw [← h5] at herr
            have h6 : s4.err.isSome = true := herr
            rw [Bool.not_eq_true] at hns
            rw [hns] at h6
            exact Bool.noConfusion h6

/-- Witness for C10: the dict construct `<(aa^ff)>` records a bad-alias
error (the reference `^ff` is unresolved); the run ends with the error
set, no dictionary entry added (only the empty namespace "a" created),
and the lookup of "aa" in namespace "a" is unchanged (absent). -/
theorem c10_dict_error_atomicity_witness :
    expectDict 5 ⟨[⟨.tLANGLE, "<"⟩, ⟨.tLPAREN, "("⟩, ⟨.tNAME, "aa"⟩,
        ⟨.tCARET, "^"⟩, ⟨.tNAME, "ff"⟩, ⟨.tRPAREN, ")"⟩, ⟨.tRANGLE, ">"⟩,
        eofItem], none, []⟩ =
      Step.ok () ⟨[⟨.tRPAREN, ")"⟩, ⟨.tRANGLE, ">"⟩, eofItem],
        some (.badAlias "ff" "a"), [("a", [])]⟩ ∧
    alookup (dictGet ([("a", [])] : Dicts) "a") "aa" =
      alookup (dictGet ([] : Dicts) "a") "aa" :=
  ⟨rfl,
    c10_dict_error_atomicity
      ⟨[⟨.tLANGLE, "<"⟩, ⟨.tLPAREN, "("⟩, ⟨.tNAME, "aa"⟩, ⟨.tCARET, "^"⟩,
        ⟨.tNAME, "ff"⟩, ⟨.tRPAREN, ")"⟩, ⟨.tRANGLE, ">"⟩, eofItem], none, []⟩
      5
      ⟨[⟨.tRPAREN, ")"⟩, ⟨.tRANGLE, ">"⟩, eofItem],
        some (.badAlias "ff" "a"), [("a", [])]⟩
      rfl rfl rfl "a" "aa"⟩

/-- Symbolic run of expectTable over the token stream of
`{id:sc[rid(c=v)]}`: the table key is the coalesced `id ++ ":" ++ sc`
and the table holds the single row. -/
theorem expectTable_run (id sc rid c v : String) (toks0 rest : List Item)
    (ds : Dicts) (n : Nat) (hts : toks0 = tableToks id sc rid c v ++ rest)
    (hid : id.data.all isHex = true) (hrid : rid.data.all isHex = true) :
    expectTable (n + 3) ⟨toks0, none, ds⟩ =
      Step.ok (id ++ ":" ++ sc, ⟨[], [(rid, [(c, v)])]⟩) ⟨rest, none, ds⟩ := by
  subst hts
  simp [expectTable, bnd, expect, nextTokS, peekTok, expectOID, expectID,
    expectName, tableToks, tableRows, expectRow, expectCells, expectCellsGo,
    expectCell, aset, hid, hrid]

/-- One top-level step of Parse over a table construct. -/
theorem ParseLoop_table_step (n : Nat) (tabs : Tabs) (s s' : PState)
    (toid : String) (tab : Table) (hp : (peekTok s).typ = .tLBRACE)
    (h : expectTable n s = Step.ok (toid, tab) s') (he : s'.err = none) :
    ParseLoop (n + 1) tabs s = ParseLoop n (aset tabs toid tab) s' := by
  rw [ParseLoop]
  simp [hp, bnd, h, he]

/-- The top-level loop at end-of-input returns the accumulated tables. -/
theorem ParseLoop_eof (n : Nat) (tabs : Tabs) (s : PState)
    (hp : (peekTok s).typ = .tEOF) : ParseLoop (n + 1) tabs s = Step.ok tabs s := by
  rw [ParseLoop]
  simp [hp]

/-- String append is left-cancellative. -/
theorem string_append_cancel_left (a b c : String) (h : a ++ b = a ++ c) :
    b = c := by
  have hd : a.data ++ b.data = a.data ++ c.data := by
    rw [← String.data_append, ← String.data_append, h]
  cases b with
  | mk bl =>
    cases c with
    | mk cl =>
      have := List.append_cancel_left hd
      simp_all

/-- Coalesced keys with the same id and different scopes differ. -/
theorem toid_key_ne (id s1 s2 : String) (h : s1 ≠ s2) :
    id ++ ":" ++ s1 ≠ id ++ ":" ++ s2 :=
  fun hc => h (string_append_cancel_left (id ++ ":") s1 s2 hc)

/-- C8: table identity coalescing.  Parsing two table constructs with
the same hex id and scopes s1, s2 keys each by `id ++ ":" ++ scope` in
the result map; with different scopes the two occupy distinct keys and
both are present; with identical scopes the later construct replaces the
earlier one outright (last wins, no merge). -/
theorem c8_table_identity_coalescing (id s1 s2 : String) (n : Nat)
    (hid : id.data.all isHex = true) :
    mParse (tableToks id s1 "11" "x" "1" ++ tableToks id s2 "22" "y" "2" ++ [eofItem])
        (n + 9) =
      Step.ok
        (aset (aset [] (id ++ ":" ++ s1) tA)
          (id ++ ":" ++ s2) tB)
        ⟨[eofItem], none, []⟩ ∧
    (s1 ≠ s2 →
      alookup
          (aset (aset [] (id ++ ":" ++ s1) tA)
            (id ++ ":" ++ s2) tB)
          (id ++ ":" ++ s1) = some tA ∧
      alookup
          (aset (aset [] (id ++ ":" ++ s1) tA)
            (id ++ ":" ++ s2) tB)
          (id ++ ":" ++ s2) = some tB ∧
      (id ++ ":" ++ s1) ≠ (id ++ ":" ++ s2)) ∧
    (s1 = s2 →
      aset (aset [] (id ++ ":" ++ s1) tA)
          (id ++ ":" ++ s2) tB =
        [((id ++ ":" ++ s2), tB)]) := by
  refine ⟨?_, ?_, ?_⟩
  · have h1 := expectTable_run id s1 "11" "x" "1"
      (tableToks id s1 "11" "x" "1" ++ (tableToks id s2 "22" "y" "2" ++ [eofItem]))
      (tableToks id s2 "22" "y" "2" ++ [eofItem]) [] (n + 5) rfl hid (by decide)
    have h2 := expectTable_run id s2 "22" "y" "2"
      (tableToks id s2 "22" "y" "2" ++ [eofItem]) [eofItem] [] (n + 4) rfl hid
      (by decide)
    calc
      mParse (tableToks id s1 "11" "x" "1" ++ tableToks id s2 "22" "y" "2" ++ [eofItem])
          (n + 9)
          = ParseLoop (((n + 5) + 3) + 1) []
              ⟨tableToks id s1 "11" "x" "1" ++ (tableToks id s2 "22" "y" "2" ++ [eofItem]),
                none, []⟩ := rfl
      _ = ParseLoop ((n + 5) + 3)
            (aset [] (id ++ ":" ++ s1) tA)
            ⟨tableToks id s2 "22" "y" "2" ++ [eofItem], none, []⟩ :=
          ParseLoop_table_step ((n + 5) + 3) [] _ _ _ _ rfl h1 rfl
      _ = ParseLoop (((n + 4) + 3) + 1)
            (aset [] (id ++ ":" ++ s1) tA)
            ⟨tableToks id s2 "22" "y" "2" ++ [eofItem], none, []⟩ := rfl
      _ = ParseLoop ((n + 4) + 3)
            (aset (aset [] (id ++ ":" ++ s1) tA)
              (id ++ ":" ++ s2) tB)
            ⟨[eofItem], none, []⟩ :=
          ParseLoop_table_step ((n + 4) + 3) _ _ _ _ _ rfl h2 rfl
      _ = Step.ok
            (aset (aset [] (id ++ ":" ++ s1) tA)
              (id ++ ":" ++ s2) tB)
            ⟨[eofItem], none, []⟩ :=
          ParseLoop_eof ((n + 4) + 2) _ _ rfl
  · intro hne
    refine ⟨?_, alookup_aset_self _ _ _, toid_key_ne id s1 s2 hne⟩
    rw [alookup_aset_ne _ (id ++ ":" ++ s1) (id ++ ":" ++ s2) _
      (toid_key_ne id s2 s1 (Ne.symm hne))]
    exact alookup_aset_self _ _ _
  · intro hsame
    subst hsame
    simp [aset]

/-- Witness for C8 at id "aa", scopes "x" and "y". -/
theorem c8_table_identity_coalescing_witness :
    mParse (tableToks "aa" "x" "11" "x" "1" ++ tableToks "aa" "y" "22" "y" "2" ++ [eofItem]) 9 =
      Step.ok
        (aset (aset [] ("aa" ++ ":" ++ "x") tA)
          ("aa" ++ ":" ++ "y") tB)
        ⟨[eofItem], none, []⟩ ∧
    (("x" : String) ≠ "y" →
      alookup
          (aset (aset [] ("aa" ++ ":" ++ "x") tA)
            ("aa" ++ ":" ++ "y") tB)
          ("aa" ++ ":" ++ "x") = some tA ∧
      alookup
          (aset (aset [] ("aa" ++ ":" ++ "x") tA)
            ("aa" ++ ":" ++ "y") tB)
          ("aa" ++ ":" ++ "y") = some tB ∧
      ("aa" ++ ":" ++ "x") ≠ ("aa" ++ ":" ++ "y")) ∧
    (("x" : String) = "y" →
      aset (aset [] ("aa" ++ ":" ++ "x") tA)
          ("aa" ++ ":" ++ "y") tB =
        [(("aa" ++ ":" ++ "y"), tB)]) :=
  c8_table_identity_coalescing "aa" "x" "y" 0 (by decide)

end Mork
